import Mathlib

/-!
# Verification of the SmuView device acquisition core

A shallow embedding of the packet demultiplexing, channel/configurable
registry construction and device lifecycle logic of
`sv::devices::BaseDevice` / `sv::devices::HardwareDevice`
(`basedevice.cpp`, `hardwaredevice.cpp`), together with proofs of the
behavioural properties stated in the specification.

Modelling conventions:
* C++ `std::map` registries become association lists (`List (κ × ν)`)
  looked up with `alookup`; `std::map::insert` never overwrites, which the
  embedding mirrors by only inserting under an explicit absence guard,
  exactly as the source does.
* Wall-clock readings (`QDateTime::currentMSecsSinceEpoch() / 1000.0`)
  become an opaque `Nat` clock value passed in at each packet receipt;
  the code only stores, compares and copies these values.
* The decoded interleaved float buffer of an analog payload becomes a
  `List Int` of opaque sample values: the code never computes with the
  values, it only moves them, so the carrier type is irrelevant.
* A C++ crash (null `shared_ptr` dereference) is modelled by an `Option`
  result being `none`.
-/

set_option autoImplicit false

namespace SmuView

/-- Association-list lookup, the embedding of `std::map` lookup
(first entry with the given key). -/
def alookup {κ ν : Type} [DecidableEq κ] : List (κ × ν) → κ → Option ν
  | [], _ => none
  | (k, v) :: rest, k0 => if k = k0 then some v else alookup rest k0

/-- `AquisitionState` from `basedevice.hpp` (spelling as in the source). -/
inductive AquisitionState where
  | Stopped
  | Running
  | Paused
deriving DecidableEq, Repr

/-- A `sigrok::Channel` as seen by the device layer: an object identity
(`oid`, standing for the `shared_ptr` identity the C++ maps key on) and
the driver-reported channel name. -/
structure SrChannel where
  oid : Nat
  name : String
deriving DecidableEq, Repr

/-- One sample record as appended to a channel's actual `Signal`.
Modelled from the spec: `push_interleaved_samples` (whose body is not in
the analysed sources) pushes the channel's strided slice of the decoded
buffer, each value annotated with the packet timestamp and the resolved
sample rate. -/
structure Sample where
  timestamp : Nat
  samplerate : Nat
  value : Int
deriving DecidableEq, Repr

/-- An analog packet as consumed by `HardwareDevice::feed_in_analog`:
the payload's channel list (`sr_analog->channels()`), its sample count
(`sr_analog->num_samples()`), and the decoded interleaved buffer
(`get_data_as_float`), laid out as
`[s0_ch0, s0_ch1, ..., s1_ch0, s1_ch1, ...]`. -/
structure AnalogPacket where
  channels : List SrChannel
  num_samples : Nat
  data : List Int
deriving DecidableEq, Repr

/-- The packet kinds dispatched by `BaseDevice::data_feed_in`
(`SR_DF_HEADER`, `SR_DF_META`, ... , `SR_DF_END`); Meta routing touches
only the configurable registry and is modelled separately. -/
inductive Packet where
  | header
  | meta
  | trigger
  | logic
  | analog (pkt : AnalogPacket)
  | frameBegin
  | frameEnd
  | endPacket
  | other
deriving DecidableEq, Repr

/-- The device state touched by the packet feed path: the acquisition
state, the frame bookkeeping (`frame_began_`, `frame_start_timestamp_`),
the cached samplerate property (`samplerate_prop_`, `none` when the
device exposes no samplerate), and the per-channel signal buffers —
the composition of `sr_channel_map_` with each channel's actual signal,
keyed by the `sigrok::Channel` identity. -/
structure FeedState where
  aquisition_state : AquisitionState
  frame_began : Bool
  frame_start_timestamp : Nat
  samplerate_prop : Option Nat
  signals : List (SrChannel × List Sample)
deriving DecidableEq, Repr

/-- The strided slice of the interleaved buffer for the channel at
position `i` of the payload's channel list: values at buffer offsets
`i, i + stride, ..., i + (n-1) * stride`. -/
def stridedSlice (data : List Int) (i stride n : Nat) : List Int :=
  (List.range n).map (fun k => data.getD (i + k * stride) 0)

/-- Modelled from the spec: the samples appended by
`BaseChannel::push_interleaved_samples` — one entry per buffer value,
annotated with the packet timestamp and resolved sample rate. -/
def mkSamples (ts rate : Nat) (vals : List Int) : List Sample :=
  vals.map (fun v => ⟨ts, rate, v⟩)

/-- Append `new` samples to the signal of channel `ch` (the effect of a
`push_interleaved_samples` call on the signal buffers). -/
def pushToChannel (sigs : List (SrChannel × List Sample)) (ch : SrChannel)
    (news : List Sample) : List (SrChannel × List Sample) :=
  sigs.map (fun p => if p.1 = ch then (p.1, p.2 ++ news) else p)

/-- The per-channel loop of `HardwareDevice::feed_in_analog`: walk the
payload's channel list in order (the pointer `channel_data` advancing by
one per channel, i.e. position `i`), look each channel up in
`sr_channel_map_` and push its strided slice.

NOTE (faithful to the source): on a missing registry entry the source
executes `assert("Unknown channel")` — an assert on a non-null string
literal, which is vacuously true in every build — and then proceeds to
`sr_channel_map_[sr_channel]`, which default-constructs a null
`shared_ptr` whose dereference in `push_interleaved_samples` is a crash.
The crash is modelled by returning `none`. -/
def distributeSamples (data : List Int) (stride n ts rate : Nat) :
    List SrChannel → Nat → List (SrChannel × List Sample) →
    Option (List (SrChannel × List Sample))
  | [], _, sigs => some sigs
  | ch :: rest, i, sigs =>
    if (alookup sigs ch).isSome then
      distributeSamples data stride n ts rate rest (i + 1)
        (pushToChannel sigs ch (mkSamples ts rate (stridedSlice data i stride n)))
    else
      none

/-- `HardwareDevice::feed_in_analog`: empty payloads return at once;
otherwise resolve the samplerate from the cached property (0 when there
is none), pick the timestamp (frame-start timestamp inside a frame, the
wall clock `now` at receipt otherwise) and distribute the interleaved
buffer. `none` models the crash on an unregistered channel. -/
def feed_in_analog (now : Nat) (pkt : AnalogPacket) (st : FeedState) :
    Option FeedState :=
  if pkt.num_samples = 0 then
    some st
  else
    let rate := st.samplerate_prop.getD 0
    let ts := if st.frame_began then st.frame_start_timestamp else now
    match distributeSamples pkt.data pkt.channels.length pkt.num_samples
        ts rate pkt.channels 0 st.signals with
    | some sigs => some { st with signals := sigs }
    | none => none

/-- `HardwareDevice::feed_in_frame_begin`: record the wall clock at
receipt as the frame-start timestamp and set `frame_began_`. -/
def feed_in_frame_begin (now : Nat) (st : FeedState) : FeedState :=
  { st with frame_start_timestamp := now, frame_began := true }

/-- `HardwareDevice::feed_in_frame_end`: clear `frame_began_`. -/
def feed_in_frame_end (st : FeedState) : FeedState :=
  { st with frame_began := false }

/-- `BaseDevice::data_feed_in`, restricted to the state the feed path
touches. Header/Trigger/Logic are no-op hooks; Analog (and Logic) are
gated on `aquisition_state_ == Running`; the `SR_DF_END` case's entire
body is `{ lock_guard<recursive_mutex> lock(data_mutex_); }` — it takes
and releases the data mutex and changes no state; unknown tags fall to
`default: break`. `none` propagates the analog-path crash. -/
def data_feed_in (now : Nat) (p : Packet) (st : FeedState) : Option FeedState :=
  match p with
  | .header => some st
  | .meta => some st
  | .trigger => some st
  | .logic =>
    if st.aquisition_state ≠ AquisitionState.Running then some st
    else some st
  | .analog pkt =>
    if st.aquisition_state ≠ AquisitionState.Running then some st
    else feed_in_analog now pkt st
  | .frameBegin => some (feed_in_frame_begin now st)
  | .frameEnd => some (feed_in_frame_end st)
  | .endPacket => some st
  | .other => some st

/-! ## Meta packet routing (`HardwareDevice::feed_in_meta`) -/

/-- The loop body of `HardwareDevice::feed_in_meta` over the entries of
`configurable_map_` (keys are channel-group names, `""` keys the
device-level Configurable; Configurables are represented by their ids).
An entry with empty key is skipped (`continue`) whenever the registry
holds more than one Configurable (`size`); otherwise the meta packet is
fed to the current entry and the loop breaks. Returns the ids of the
Configurables the packet is delivered to, in delivery order. -/
def feed_in_meta_loop (size : Nat) : List (String × Nat) → List Nat
  | [] => []
  | (k, c) :: rest =>
    if k = "" ∧ 1 < size then feed_in_meta_loop size rest else [c]

/-- `HardwareDevice::feed_in_meta`: run the loop over the registry with
`size = configurable_map_.size()`. -/
def feed_in_meta (configurable_map : List (String × Nat)) : List Nat :=
  feed_in_meta_loop configurable_map.length configurable_map

/-- The first entry of the configurable registry with a nonempty key,
i.e. the first channel-group Configurable in iteration order. -/
def firstGroupConf : List (String × Nat) → Option Nat
  | [] => none
  | (k, c) :: rest => if k = "" then firstGroupConf rest else some c

/-! ## Device lifecycle (`BaseDevice::close`) -/

/-- The lifecycle state read or written by `BaseDevice::close`: the
`device_open_` flag, the acquisition state, whether the datafeed
callbacks are installed, how many devices the session holds, and whether
the acquisition thread is still running. The channel/configurable
registries are untouched by `close` in the source (it never mutates
them), so state equality covers them. -/
structure DeviceLifecycle where
  device_open : Bool
  aquisition_state : AquisitionState
  session_has_callbacks : Bool
  session_device_count : Nat
  thread_running : Bool
deriving DecidableEq, Repr

/-- `sr_device_->close()` through its C++ exception behaviour: the driver
either succeeds or throws a `sigrok::Error`. -/
def sr_device_close (fails : Bool) : Except String Unit :=
  if fails then Except.error "sigrok device close failed" else Except.ok ()

/-- `BaseDevice::close`: early return when not open; otherwise stop the
session, join the acquisition thread, remove the datafeed callbacks, set
the state to Stopped, call the driver's device close inside
`try { ... } catch (...) {}` (every failure swallowed), and remove the
session's devices and clear `device_open_`. An `Except.error` result
would model an exception escaping `close`. -/
def close (dev_close_fails : Bool) (st : DeviceLifecycle) :
    Except String DeviceLifecycle :=
  if !st.device_open then Except.ok st
  else
    let st1 : DeviceLifecycle :=
      { st with
        thread_running := false
        session_has_callbacks := false
        aquisition_state := AquisitionState.Stopped }
    match sr_device_close dev_close_fails with
    | Except.ok _ =>
      Except.ok { st1 with session_device_count := 0, device_open := false }
    | Except.error _ =>
      Except.ok { st1 with session_device_count := 0, device_open := false }

/-! ## Channel registry construction (`BaseDevice::add_channel`,
`BaseDevice::add_sr_channel`, `HardwareDevice::init_channels`) -/

/-- Update the value of every entry with key `k` (the embedding of an
in-place mutation of a `std::map` entry). -/
def updateVal {κ ν : Type} [DecidableEq κ] (l : List (κ × ν)) (k : κ)
    (f : ν → ν) : List (κ × ν) :=
  l.map (fun p => if p.1 = k then (p.1, f p.2) else p)

/-- A `BaseChannel` as touched by registry construction: its (immutable)
name and its set of channel-group names, kept in insertion order. -/
structure BChan where
  name : String
  groupNames : List String
deriving DecidableEq, Repr

/-- The registry state of `BaseDevice` built by `init_channels`: a store
of channel objects keyed by identity (`Nat` ids standing for the
`shared_ptr` identities, allocated by a counter), `channel_name_map_`,
`channel_group_name_map_`, `sr_channel_map_`, and the ordered log of
`channel_added` emissions (the id fired with each emission). -/
structure Registry where
  nextId : Nat
  chans : List (Nat × BChan)
  channel_name_map : List (String × Nat)
  channel_group_name_map : List (String × List Nat)
  sr_channel_map : List (SrChannel × Nat)
  events : List Nat
deriving DecidableEq, Repr

/-- `BaseDevice::add_channel`: insert the channel into
`channel_name_map_` only if its name is not yet present; create the
group's entry in `channel_group_name_map_` if missing and unconditionally
`push_back` the channel onto it; add the group name to the channel's own
group-name set if missing; finally emit `channel_added`
(unconditionally). -/
def add_channel (st : Registry) (cid : Nat) (g : String) : Registry :=
  let ch := (alookup st.chans cid).getD ⟨"", []⟩
  { st with
    channel_name_map :=
      if (alookup st.channel_name_map ch.name).isSome then st.channel_name_map
      else (ch.name, cid) :: st.channel_name_map
    channel_group_name_map :=
      updateVal
        (if (alookup st.channel_group_name_map g).isSome then
          st.channel_group_name_map
        else (g, []) :: st.channel_group_name_map)
        g (fun ids => ids ++ [cid])
    chans :=
      if g ∈ ch.groupNames then st.chans
      else updateVal st.chans cid (fun c => ⟨c.name, c.groupNames ++ [g]⟩)
    events := st.events ++ [cid] }

/-- The intermediate registry built by the fresh-channel branch of
`BaseDevice::add_sr_channel`: a new hardware channel with the reported
name and the singleton group-name set is constructed under a fresh id
and recorded in the store and in `sr_channel_map_`. -/
def freshReg (st : Registry) (sr : SrChannel) (g : String) : Registry :=
  { st with
    nextId := st.nextId + 1
    chans := st.chans ++ [(st.nextId, ⟨sr.name, [g]⟩)]
    sr_channel_map := st.sr_channel_map ++ [(sr, st.nextId)] }

/-- `BaseDevice::add_sr_channel`: channel names are unique per device, so
if `channel_name_map_` already holds the name, reuse that channel;
otherwise construct a new hardware channel whose group-name set is the
singleton `{channel_group_name}` and record it in `sr_channel_map_`.
Either way, finish through `add_channel`. -/
def add_sr_channel (st : Registry) (sr : SrChannel) (g : String) : Registry :=
  match alookup st.channel_name_map sr.name with
  | some cid => add_channel st cid g
  | none => add_channel (freshReg st sr g) st.nextId g

/-- The (group name, channel) pairs visited by the nested loops of pass 1
of `HardwareDevice::init_channels`, in visit order. -/
def groupWorkItems : List (String × List SrChannel) → List (String × SrChannel)
  | [] => []
  | (g, cs) :: rest => cs.map (fun c => (g, c)) ++ groupWorkItems rest

/-- Pass 1 of `HardwareDevice::init_channels`: for every channel group,
for every channel in it, `add_sr_channel`. -/
def initPass1 (st : Registry) (groups : List (String × List SrChannel)) :
    Registry :=
  (groupWorkItems groups).foldl (fun s gc => add_sr_channel s gc.2 gc.1) st

/-- Pass 2 of `HardwareDevice::init_channels`: every device channel not
already in `sr_channel_map_` is added with the empty group name. -/
def initPass2 (st : Registry) (srChans : List SrChannel) : Registry :=
  srChans.foldl
    (fun s c => if (alookup s.sr_channel_map c).isSome then s
      else add_sr_channel s c "") st

/-- The registry before `init_channels` runs. -/
def emptyRegistry : Registry := ⟨0, [], [], [], [], []⟩

/-- `HardwareDevice::init_channels`. -/
def init_channels (groups : List (String × List SrChannel))
    (srChans : List SrChannel) : Registry :=
  initPass2 (initPass1 emptyRegistry groups) srChans

/-- The registry invariant: the name map is sound (each binding points to
a stored channel of that name) and complete (each stored channel's name
is bound to its id), channel ids are unique, and all ids are below the
allocation counter. -/
def Inv (st : Registry) : Prop :=
  (∀ p ∈ st.channel_name_map,
    (alookup st.chans p.2).map BChan.name = some p.1) ∧
  (∀ q ∈ st.chans, alookup st.channel_name_map q.2.name = some q.1) ∧
  (st.chans.map Prod.fst).Nodup ∧
  (∀ q ∈ st.chans, q.1 < st.nextId)

/-- A channel of name `n` is fully registered under group `g`: the name
map binds `n` to an id whose stored channel is named `n` and carries the
group membership, and the group map lists the id under `g`. -/
def Registered (st : Registry) (n : String) (g : String) : Prop :=
  ∃ cid ch, alookup st.channel_name_map n = some cid ∧
    alookup st.chans cid = some ch ∧ ch.name = n ∧
    g ∈ ch.groupNames ∧
    cid ∈ (alookup st.channel_group_name_map g).getD []

/-! ## Lemmas about the sample-distribution loop -/

theorem alookup_cons {κ ν : Type} [DecidableEq κ] (k : κ) (v : ν)
    (rest : List (κ × ν)) (x : κ) :
    alookup ((k, v) :: rest) x = if k = x then some v else alookup rest x := rfl

theorem pushToChannel_cons (k : SrChannel) (v : List Sample)
    (rest : List (SrChannel × List Sample)) (ch : SrChannel)
    (news : List Sample) :
    pushToChannel ((k, v) :: rest) ch news =
      (if k = ch then (k, v ++ news) else (k, v)) :: pushToChannel rest ch news := by
  by_cases hk : k = ch
  · simp [pushToChannel, hk]
  · simp [pushToChannel, hk]

theorem alookup_pushToChannel (sigs : List (SrChannel × List Sample))
    (ch : SrChannel) (news : List Sample) (x : SrChannel) :
    alookup (pushToChannel sigs ch news) x =
      if x = ch then (alookup sigs ch).map (· ++ news) else alookup sigs x := by
  induction sigs with
  | nil => simp [pushToChannel, alookup]
  | cons p rest ih =>
    obtain ⟨k, v⟩ := p
    rw [pushToChannel_cons]
    by_cases hk : k = ch
    · rw [if_pos hk]
      subst hk
      simp only [alookup_cons]
      rw [ih]
      by_cases hx : k = x
      · subst hx
        simp
      · simp [hx, Ne.symm hx]
    · rw [if_neg hk]
      simp only [alookup_cons]
      rw [ih]
      by_cases hx : k = x
      · subst hx
        simp [hk]
      · simp [hx, hk]

theorem alookup_pushToChannel_isSome (sigs : List (SrChannel × List Sample))
    (ch : SrChannel) (news : List Sample) (x : SrChannel) :
    (alookup (pushToChannel sigs ch news) x).isSome = (alookup sigs x).isSome := by
  rw [alookup_pushToChannel]
  by_cases hx : x = ch
  · subst hx
    simp
  · simp [hx]

/-- On a payload whose channels are all registered and pairwise distinct,
the distribution loop succeeds; the channel at position `j` gets exactly
the strided slice starting at offset `i + j` appended, and channels not
in the payload keep their signals unchanged. -/
theorem distributeSamples_registered (data : List Int) (stride n ts rate : Nat) :
    ∀ (chans : List SrChannel) (i : Nat) (sigs : List (SrChannel × List Sample)),
    chans.Nodup →
    (∀ ch ∈ chans, (alookup sigs ch).isSome) →
    ∃ sigs', distributeSamples data stride n ts rate chans i sigs = some sigs' ∧
      (∀ (j : Nat) (hj : j < chans.length),
        alookup sigs' (chans.get ⟨j, hj⟩) =
          (alookup sigs (chans.get ⟨j, hj⟩)).map
            (· ++ mkSamples ts rate (stridedSlice data (i + j) stride n))) ∧
      (∀ ch, ch ∉ chans → alookup sigs' ch = alookup sigs ch) := by
  intro chans
  induction chans with
  | nil =>
    intro i sigs _ _
    exact ⟨sigs, rfl, fun j hj => absurd hj (Nat.not_lt_zero j), fun _ _ => rfl⟩
  | cons ch rest ih =>
    intro i sigs hnd hreg
    have hch : (alookup sigs ch).isSome := hreg ch (List.mem_cons_self ch rest)
    have hnd' : rest.Nodup := (List.nodup_cons.mp hnd).2
    have hnotmem : ch ∉ rest := (List.nodup_cons.mp hnd).1
    set sigs1 := pushToChannel sigs ch
      (mkSamples ts rate (stridedSlice data i stride n)) with hsigs1
    have hreg1 : ∀ c ∈ rest, (alookup sigs1 c).isSome := by
      intro c hc
      rw [hsigs1, alookup_pushToChannel_isSome]
      exact hreg c (List.mem_cons_of_mem ch hc)
    obtain ⟨sigs', hrun, hpos, hother⟩ := ih (i + 1) sigs1 hnd' hreg1
    refine ⟨sigs', ?_, ?_, ?_⟩
    · simp only [distributeSamples, hch, if_pos]
      exact hrun
    · intro j hj
      match j with
      | 0 =>
        have hget : (ch :: rest).get ⟨0, hj⟩ = ch := rfl
        rw [hget]
        have := hother ch hnotmem
        rw [this, hsigs1, alookup_pushToChannel]
        simp
      | Nat.succ j' =>
        have hj' : j' < rest.length := Nat.lt_of_succ_lt_succ hj
        have hget : (ch :: rest).get ⟨j' + 1, hj⟩ = rest.get ⟨j', hj'⟩ := rfl
        rw [hget, hpos j' hj']
        have hne : rest.get ⟨j', hj'⟩ ≠ ch := by
          intro heq
          exact hnotmem (heq ▸ rest.get_mem j' hj')
        rw [hsigs1, alookup_pushToChannel, if_neg hne]
        have harith : i + 1 + j' = i + (j' + 1) := by omega
        rw [harith]
    · intro c hc
      have hc1 : c ∉ rest := fun h => hc (List.mem_cons_of_mem ch h)
      have hcch : c ≠ ch := fun h => hc (h ▸ List.mem_cons_self ch rest)
      rw [hother c hc1, hsigs1, alookup_pushToChannel, if_neg hcch]

/-- Every signal present before a successful distribution run is extended
(only) by samples carrying the packet timestamp and sample rate. -/
theorem distributeSamples_appended (data : List Int) (stride n ts rate : Nat) :
    ∀ (chans : List SrChannel) (i : Nat)
      (sigs sigs' : List (SrChannel × List Sample)),
    distributeSamples data stride n ts rate chans i sigs = some sigs' →
    ∀ ch old news, alookup sigs ch = some old → alookup sigs' ch = some news →
    ∃ tail, news = old ++ tail ∧
      ∀ s ∈ tail, s.timestamp = ts ∧ s.samplerate = rate := by
  intro chans
  induction chans with
  | nil =>
    intro i sigs sigs' hrun ch old news hold hnew
    simp only [distributeSamples] at hrun
    obtain rfl := Option.some.inj hrun
    rw [hold] at hnew
    obtain rfl := Option.some.inj hnew
    exact ⟨[], by simp, by simp⟩
  | cons c rest ih =>
    intro i sigs sigs' hrun ch old news hold hnew
    by_cases hc : (alookup sigs c).isSome
    · simp only [distributeSamples, hc, if_pos] at hrun
      set sigs1 := pushToChannel sigs c
        (mkSamples ts rate (stridedSlice data i stride n)) with hsigs1
      by_cases hcc : ch = c
      · subst hcc
        have hmid : alookup sigs1 ch =
            some (old ++ mkSamples ts rate (stridedSlice data i stride n)) := by
          rw [hsigs1, alookup_pushToChannel, if_pos rfl, hold]
          rfl
        obtain ⟨tail, htail, hts⟩ := ih (i + 1) sigs1 sigs' hrun ch _ news hmid hnew
        refine ⟨mkSamples ts rate (stridedSlice data i stride n) ++ tail, ?_, ?_⟩
        · rw [htail, List.append_assoc]
        · intro s hs
          rcases List.mem_append.mp hs with hs | hs
          · simp only [mkSamples, List.mem_map] at hs
            obtain ⟨v, _, rfl⟩ := hs
            exact ⟨rfl, rfl⟩
          · exact hts s hs
      · have hmid : alookup sigs1 ch = some old := by
          rw [hsigs1, alookup_pushToChannel, if_neg hcc]
          exact hold
        exact ih (i + 1) sigs1 sigs' hrun ch old news hmid hnew
    · simp only [distributeSamples, hc, if_neg, if_false] at hrun
      exact absurd hrun (by simp)

/-! ## Claims about the analog feed path -/

/-- C1: an analog packet delivered while `aquisition_state` is Stopped or
Paused is silently dropped — the whole device state, in particular every
channel's signal buffer, is unchanged; delivered while Running (over a
duplicate-free, fully registered channel set) it appends exactly
`num_samples` entries to the actual signal of every channel referenced in
the packet's channel set. -/
theorem C1_state_gated_ingestion (st : FeedState) (pkt : AnalogPacket) (now : Nat) :
    ((st.aquisition_state = AquisitionState.Stopped ∨
      st.aquisition_state = AquisitionState.Paused) →
      data_feed_in now (Packet.analog pkt) st = some st) ∧
    (st.aquisition_state = AquisitionState.Running →
      pkt.channels.Nodup →
      (∀ ch ∈ pkt.channels, (alookup st.signals ch).isSome) →
      ∃ st', data_feed_in now (Packet.analog pkt) st = some st' ∧
        ∀ ch ∈ pkt.channels, ∀ old, alookup st.signals ch = some old →
          ∃ news, alookup st'.signals ch = some news ∧
            news.length = old.length + pkt.num_samples) := by
  constructor
  · intro hgate
    have hne : st.aquisition_state ≠ AquisitionState.Running := by
      rcases hgate with h | h <;> simp [h]
    simp [data_feed_in, hne]
  · intro hrun hnd hreg
    by_cases h0 : pkt.num_samples = 0
    · refine ⟨st, ?_, ?_⟩
      · simp [data_feed_in, hrun, feed_in_analog, h0]
      · intro ch _ old hold
        exact ⟨old, hold, by simp [h0]⟩
    · obtain ⟨sigs', hdist, hpos, _⟩ :=
        distributeSamples_registered pkt.data pkt.channels.length pkt.num_samples
          (if st.frame_began then st.frame_start_timestamp else now)
          (st.samplerate_prop.getD 0) pkt.channels 0 st.signals hnd hreg
      refine ⟨{ st with signals := sigs' }, ?_, ?_⟩
      · simp only [data_feed_in, hrun, ne_eq, not_true_eq_false, if_false,
          feed_in_analog, h0, if_neg h0]
        rw [hdist]
      · intro ch hch old hold
        obtain ⟨⟨j, hj⟩, hget⟩ := List.mem_iff_get.mp hch
        have := hpos j hj
        rw [hget, hold] at this
        refine ⟨_, this, ?_⟩
        simp [mkSamples, stridedSlice]

/-- Closed witness for C1: a 2-channel, 2-sample packet is dropped while
Paused and appends two entries per channel while Running. -/
theorem C1_state_gated_ingestion_witness :
    (data_feed_in 7 (Packet.analog ⟨[⟨0, "A"⟩, ⟨1, "B"⟩], 2, [10, 20, 30, 40]⟩)
        ⟨AquisitionState.Paused, false, 0, none, [(⟨0, "A"⟩, []), (⟨1, "B"⟩, [])]⟩ =
      some ⟨AquisitionState.Paused, false, 0, none, [(⟨0, "A"⟩, []), (⟨1, "B"⟩, [])]⟩) ∧
    (∃ st', data_feed_in 7 (Packet.analog ⟨[⟨0, "A"⟩, ⟨1, "B"⟩], 2, [10, 20, 30, 40]⟩)
        ⟨AquisitionState.Running, false, 0, none, [(⟨0, "A"⟩, []), (⟨1, "B"⟩, [])]⟩ =
        some st' ∧
      ∀ ch ∈ [SrChannel.mk 0 "A", SrChannel.mk 1 "B"], ∀ old,
        alookup [(SrChannel.mk 0 "A", ([] : List Sample)), (SrChannel.mk 1 "B", [])] ch =
          some old →
        ∃ news, alookup st'.signals ch = some news ∧
          news.length = old.length + 2) := by
  constructor
  · exact (C1_state_gated_ingestion _ _ _).1 (Or.inr rfl)
  · exact (C1_state_gated_ingestion
      ⟨AquisitionState.Running, false, 0, none, [(⟨0, "A"⟩, []), (⟨1, "B"⟩, [])]⟩
      ⟨[⟨0, "A"⟩, ⟨1, "B"⟩], 2, [10, 20, 30, 40]⟩ 7).2 rfl (by decide) (by decide)

/-- C2: for an interleaved payload over `C` channels with `N` samples
each, the channel at position `i` of the packet's channel list receives
exactly the buffer values at offsets `i, i + C, ..., i + (N-1)·C`
(that is `stridedSlice data i C N`), and channels not in the packet's
channel set are untouched. -/
theorem C2_interleave_correctness (st : FeedState) (pkt : AnalogPacket) (now : Nat)
    (hrun : st.aquisition_state = AquisitionState.Running)
    (hnd : pkt.channels.Nodup)
    (hreg : ∀ ch ∈ pkt.channels, (alookup st.signals ch).isSome) :
    ∃ st', data_feed_in now (Packet.analog pkt) st = some st' ∧
      (∀ (i : Nat) (hi : i < pkt.channels.length) (old : List Sample),
        alookup st.signals (pkt.channels.get ⟨i, hi⟩) = some old →
        alookup st'.signals (pkt.channels.get ⟨i, hi⟩) =
          some (old ++
            mkSamples (if st.frame_began then st.frame_start_timestamp else now)
              (st.samplerate_prop.getD 0)
              (stridedSlice pkt.data i pkt.channels.length pkt.num_samples))) ∧
      (∀ ch, ch ∉ pkt.channels → alookup st'.signals ch = alookup st.signals ch) := by
  by_cases h0 : pkt.num_samples = 0
  · refine ⟨st, by simp [data_feed_in, hrun, feed_in_analog, h0], ?_, fun _ _ => rfl⟩
    intro i hi old hold
    rw [hold]
    simp [h0, mkSamples, stridedSlice]
  · obtain ⟨sigs', hdist, hpos, hother⟩ :=
      distributeSamples_registered pkt.data pkt.channels.length pkt.num_samples
        (if st.frame_began then st.frame_start_timestamp else now)
        (st.samplerate_prop.getD 0) pkt.channels 0 st.signals hnd hreg
    refine ⟨{ st with signals := sigs' }, ?_, ?_, ?_⟩
    · simp only [data_feed_in, hrun, ne_eq, not_true_eq_false, if_false,
        feed_in_analog, h0, if_neg h0]
      rw [hdist]
    · intro i hi old hold
      have := hpos i hi
      rw [hold] at this
      simpa using this
    · exact hother

/-- Closed witness for C2: channels [A, B, C] with 2 samples receive the
buffer values at offsets 0,3 / 1,4 / 2,5 respectively; a channel D not
in the payload is untouched. -/
theorem C2_interleave_correctness_witness :
    ∃ st', data_feed_in 9
        (Packet.analog ⟨[⟨0, "A"⟩, ⟨1, "B"⟩, ⟨2, "C"⟩], 2, [10, 11, 12, 20, 21, 22]⟩)
        ⟨AquisitionState.Running, false, 0, some 5,
          [(⟨0, "A"⟩, []), (⟨1, "B"⟩, []), (⟨2, "C"⟩, []), (⟨3, "D"⟩, [])]⟩ =
        some st' ∧
      (∀ (i : Nat) (hi : i < ([⟨0, "A"⟩, ⟨1, "B"⟩, ⟨2, "C"⟩] : List SrChannel).length)
        (old : List Sample),
        alookup [(⟨0, "A"⟩, []), (⟨1, "B"⟩, []), (⟨2, "C"⟩, []), (⟨3, "D"⟩, [])]
          (([⟨0, "A"⟩, ⟨1, "B"⟩, ⟨2, "C"⟩] : List SrChannel).get ⟨i, hi⟩) = some old →
        alookup st'.signals (([⟨0, "A"⟩, ⟨1, "B"⟩, ⟨2, "C"⟩] : List SrChannel).get ⟨i, hi⟩) =
          some (old ++ mkSamples 9 5 (stridedSlice [10, 11, 12, 20, 21, 22] i 3 2))) ∧
      (∀ ch, ch ∉ ([⟨0, "A"⟩, ⟨1, "B"⟩, ⟨2, "C"⟩] : List SrChannel) →
        alookup st'.signals ch =
          alookup [(⟨0, "A"⟩, []), (⟨1, "B"⟩, []), (⟨2, "C"⟩, []), (⟨3, "D"⟩, [])] ch) :=
  C2_interleave_correctness
    ⟨AquisitionState.Running, false, 0, some 5,
      [(⟨0, "A"⟩, []), (⟨1, "B"⟩, []), (⟨2, "C"⟩, []), (⟨3, "D"⟩, [])]⟩
    ⟨[⟨0, "A"⟩, ⟨1, "B"⟩, ⟨2, "C"⟩], 2, [10, 11, 12, 20, 21, 22]⟩ 9
    rfl (by decide) (by decide)

/-- C10: an analog packet with zero samples is a complete no-op — analog
ingestion returns immediately with the device state (frame flag,
frame-start timestamp, cached samplerate, every signal buffer) unchanged,
in every acquisition state including Running. -/
theorem C10_zero_sample_noop (st : FeedState) (pkt : AnalogPacket) (now : Nat)
    (h0 : pkt.num_samples = 0) :
    feed_in_analog now pkt st = some st ∧
    data_feed_in now (Packet.analog pkt) st = some st := by
  have h1 : feed_in_analog now pkt st = some st := by
    simp [feed_in_analog, h0]
  refine ⟨h1, ?_⟩
  by_cases h : st.aquisition_state = AquisitionState.Running
  · simp [data_feed_in, h, h1]
  · simp [data_feed_in, h]

/-- Closed witness for C10: a zero-sample packet in Running state leaves
the state untouched. -/
theorem C10_zero_sample_noop_witness :
    feed_in_analog 3 ⟨[⟨0, "A"⟩], 0, []⟩
      ⟨AquisitionState.Running, true, 11, some 5, [(⟨0, "A"⟩, [])]⟩ =
      some ⟨AquisitionState.Running, true, 11, some 5, [(⟨0, "A"⟩, [])]⟩ ∧
    data_feed_in 3 (Packet.analog ⟨[⟨0, "A"⟩], 0, []⟩)
      ⟨AquisitionState.Running, true, 11, some 5, [(⟨0, "A"⟩, [])]⟩ =
      some ⟨AquisitionState.Running, true, 11, some 5, [(⟨0, "A"⟩, [])]⟩ :=
  C10_zero_sample_noop
    ⟨AquisitionState.Running, true, 11, some 5, [(⟨0, "A"⟩, [])]⟩
    ⟨[⟨0, "A"⟩], 0, []⟩ 3 rfl

/-- Any successful analog dispatch only appends samples to a channel's
signal, each appended sample carrying the packet timestamp (frame-start
timestamp while inside a frame, else the receipt clock) and the resolved
samplerate. -/
theorem analog_dispatch_appends (st : FeedState) (pkt : AnalogPacket) (now : Nat)
    (st' : FeedState)
    (hrun : data_feed_in now (Packet.analog pkt) st = some st') :
    ∀ ch old news, alookup st.signals ch = some old →
      alookup st'.signals ch = some news →
      ∃ tail, news = old ++ tail ∧
        ∀ s ∈ tail,
          s.timestamp = (if st.frame_began then st.frame_start_timestamp else now) ∧
          s.samplerate = st.samplerate_prop.getD 0 := by
  intro ch old news hold hnew
  by_cases hs : st.aquisition_state = AquisitionState.Running
  · simp only [data_feed_in, hs, ne_eq, not_true_eq_false, if_false] at hrun
    by_cases h0 : pkt.num_samples = 0
    · simp only [feed_in_analog, h0, if_pos] at hrun
      obtain rfl := Option.some.inj hrun
      rw [hold] at hnew
      obtain rfl := Option.some.inj hnew
      exact ⟨[], by simp, by simp⟩
    · simp only [feed_in_analog, h0, if_neg, if_false] at hrun
      cases hd : distributeSamples pkt.data pkt.channels.length pkt.num_samples
          (if st.frame_began then st.frame_start_timestamp else now)
          (st.samplerate_prop.getD 0) pkt.channels 0 st.signals with
      | none =>
        rw [hd] at hrun
        exact absurd hrun (by simp)
      | some sigs =>
        rw [hd] at hrun
        obtain rfl := Option.some.inj hrun
        exact distributeSamples_appended pkt.data pkt.channels.length pkt.num_samples
          (if st.frame_began then st.frame_start_timestamp else now)
          (st.samplerate_prop.getD 0) pkt.channels 0 st.signals sigs hd
          ch old news hold hnew
  · simp only [data_feed_in, hs, ne_eq, not_false_eq_true, if_true] at hrun
    obtain rfl := Option.some.inj hrun
    rw [hold] at hnew
    obtain rfl := Option.some.inj hnew
    exact ⟨[], by simp, by simp⟩

/-- C3: a FrameBegin packet records the wall clock at receipt as the
frame-start timestamp and raises the inside-frame flag; every sample
appended by an analog packet dispatched inside a frame carries exactly
that frame-start timestamp; samples appended by an analog packet outside
any frame carry the wall clock at packet receipt; hence over receipt
clocks that do not decrease, the timestamps appended by consecutive
non-framed analog packets do not decrease. -/
theorem C3_frame_timestamp_consistency :
    (∀ (st : FeedState) (t : Nat),
      data_feed_in t Packet.frameBegin st =
        some { st with frame_began := true, frame_start_timestamp := t }) ∧
    (∀ (st : FeedState) (pkt : AnalogPacket) (now : Nat) (st' : FeedState),
      st.frame_began = true →
      data_feed_in now (Packet.analog pkt) st = some st' →
      ∀ ch old news, alookup st.signals ch = some old →
        alookup st'.signals ch = some news →
        ∀ s ∈ news.drop old.length, s.timestamp = st.frame_start_timestamp) ∧
    (∀ (st : FeedState) (pkt : AnalogPacket) (now : Nat) (st' : FeedState),
      st.frame_began = false →
      data_feed_in now (Packet.analog pkt) st = some st' →
      ∀ ch old news, alookup st.signals ch = some old →
        alookup st'.signals ch = some news →
        ∀ s ∈ news.drop old.length, s.timestamp = now) ∧
    (∀ (stA : FeedState) (pktA : AnalogPacket) (tA : Nat) (stA' : FeedState)
       (stB : FeedState) (pktB : AnalogPacket) (tB : Nat) (stB' : FeedState),
      stA.frame_began = false → stB.frame_began = false → tA ≤ tB →
      data_feed_in tA (Packet.analog pktA) stA = some stA' →
      data_feed_in tB (Packet.analog pktB) stB = some stB' →
      ∀ chA oldA newsA chB oldB newsB,
        alookup stA.signals chA = some oldA →
        alookup stA'.signals chA = some newsA →
        alookup stB.signals chB = some oldB →
        alookup stB'.signals chB = some newsB →
        ∀ sA ∈ newsA.drop oldA.length, ∀ sB ∈ newsB.drop oldB.length,
          sA.timestamp ≤ sB.timestamp) := by
  have framed : ∀ (st : FeedState) (pkt : AnalogPacket) (now : Nat) (st' : FeedState)
      (b : Bool), st.frame_began = b →
      data_feed_in now (Packet.analog pkt) st = some st' →
      ∀ ch old news, alookup st.signals ch = some old →
        alookup st'.signals ch = some news →
        ∀ s ∈ news.drop old.length,
          s.timestamp = if b then st.frame_start_timestamp else now := by
    intro st pkt now st' b hb hrun ch old news hold hnew s hs
    obtain ⟨tail, htail, hts⟩ :=
      analog_dispatch_appends st pkt now st' hrun ch old news hold hnew
    rw [htail, List.drop_left] at hs
    have := (hts s hs).1
    rw [hb] at this
    exact this
  refine ⟨?_, ?_, ?_, ?_⟩
  · intro st t
    rfl
  · intro st pkt now st' hfb hrun ch old news hold hnew s hs
    simpa using framed st pkt now st' true hfb hrun ch old news hold hnew s hs
  · intro st pkt now st' hfb hrun ch old news hold hnew s hs
    simpa using framed st pkt now st' false hfb hrun ch old news hold hnew s hs
  · intro stA pktA tA stA' stB pktB tB stB' hfA hfB hle hrunA hrunB
    intro chA oldA newsA chB oldB newsB holdA hnewA holdB hnewB sA hsA sB hsB
    have h1 := framed stA pktA tA stA' false hfA hrunA chA oldA newsA holdA hnewA sA hsA
    have h2 := framed stB pktB tB stB' false hfB hrunB chB oldB newsB holdB hnewB sB hsB
    simp only [if_false] at h1 h2
    rw [h1, h2]
    exact hle

/-- Closed witness for C3: a framed 1-sample packet stamps its sample with
the frame-start timestamp 11 (not the receipt clock 99); the same packet
outside a frame stamps it with the receipt clock; two non-framed packets
at receipt clocks 99 ≤ 100 append non-decreasing timestamps. -/
theorem C3_frame_timestamp_consistency_witness :
    (∀ s ∈ (([⟨11, 0, 42⟩] : List Sample).drop ([] : List Sample).length),
      s.timestamp = 11) ∧
    (∀ s ∈ (([⟨99, 0, 42⟩] : List Sample).drop ([] : List Sample).length),
      s.timestamp = 99) ∧
    (∀ sA ∈ (([⟨99, 0, 42⟩] : List Sample).drop ([] : List Sample).length),
     ∀ sB ∈ (([⟨100, 0, 42⟩] : List Sample).drop ([] : List Sample).length),
      sA.timestamp ≤ sB.timestamp) := by
  refine ⟨?_, ?_, ?_⟩
  · exact C3_frame_timestamp_consistency.2.1
      ⟨AquisitionState.Running, true, 11, none, [(⟨0, "A"⟩, [])]⟩
      ⟨[⟨0, "A"⟩], 1, [42]⟩ 99
      ⟨AquisitionState.Running, true, 11, none, [(⟨0, "A"⟩, [⟨11, 0, 42⟩])]⟩
      rfl (by decide) ⟨0, "A"⟩ [] [⟨11, 0, 42⟩] (by decide) (by decide)
  · exact C3_frame_timestamp_consistency.2.2.1
      ⟨AquisitionState.Running, false, 11, none, [(⟨0, "A"⟩, [])]⟩
      ⟨[⟨0, "A"⟩], 1, [42]⟩ 99
      ⟨AquisitionState.Running, false, 11, none, [(⟨0, "A"⟩, [⟨99, 0, 42⟩])]⟩
      rfl (by decide) ⟨0, "A"⟩ [] [⟨99, 0, 42⟩] (by decide) (by decide)
  · exact C3_frame_timestamp_consistency.2.2.2
      ⟨AquisitionState.Running, false, 11, none, [(⟨0, "A"⟩, [])]⟩
      ⟨[⟨0, "A"⟩], 1, [42]⟩ 99
      ⟨AquisitionState.Running, false, 11, none, [(⟨0, "A"⟩, [⟨99, 0, 42⟩])]⟩
      ⟨AquisitionState.Running, false, 11, none, [(⟨0, "A"⟩, [])]⟩
      ⟨[⟨0, "A"⟩], 1, [42]⟩ 100
      ⟨AquisitionState.Running, false, 11, none, [(⟨0, "A"⟩, [⟨100, 0, 42⟩])]⟩
      rfl rfl (by decide) (by decide) (by decide)
      ⟨0, "A"⟩ [] [⟨99, 0, 42⟩] ⟨0, "A"⟩ [] [⟨100, 0, 42⟩]
      (by decide) (by decide) (by decide) (by decide)

/-- C8 (code bug): an analog packet referencing an unregistered channel is
NOT dropped. In the source, `assert("Unknown channel")` asserts a non-null
string literal — vacuously true in every build, production and debug alike
— and execution proceeds to `sr_channel_map_[sr_channel]`, which
default-constructs a null `shared_ptr` whose immediate dereference is a
crash (modelled as `none`), not a guarded drop. -/
theorem C8_unregistered_channel_crash :
    data_feed_in 5 (Packet.analog ⟨[⟨1, "CH2"⟩], 1, [42]⟩)
      ⟨AquisitionState.Running, false, 0, none, [(⟨0, "CH1"⟩, [])]⟩ = none ∧
    ∀ st : FeedState,
      data_feed_in 5 (Packet.analog ⟨[⟨1, "CH2"⟩], 1, [42]⟩)
        ⟨AquisitionState.Running, false, 0, none, [(⟨0, "CH1"⟩, [])]⟩ ≠ some st := by
  refine ⟨by decide, ?_⟩
  intro st h
  rw [(by decide :
    data_feed_in 5 (Packet.analog ⟨[⟨1, "CH2"⟩], 1, [42]⟩)
      ⟨AquisitionState.Running, false, 0, none, [(⟨0, "CH1"⟩, [])]⟩ =
      (none : Option FeedState))] at h
  exact Option.noConfusion h

/-- C9 (code bug): the `SR_DF_END` case of `data_feed_in` only takes and
releases the data mutex — it does not clear `frame_began_` — while
`feed_in_frame_end` does, so End and FrameEnd are not equivalent state
transformers: on a device inside a frame, End leaves the inside-frame
flag set and FrameEnd clears it. -/
theorem C9_end_vs_frame_end :
    data_feed_in 5 Packet.endPacket
      ⟨AquisitionState.Running, true, 3, none, []⟩ =
      some ⟨AquisitionState.Running, true, 3, none, []⟩ ∧
    data_feed_in 5 Packet.frameEnd
      ⟨AquisitionState.Running, true, 3, none, []⟩ =
      some ⟨AquisitionState.Running, false, 3, none, []⟩ ∧
    (⟨AquisitionState.Running, true, 3, none, []⟩ : FeedState) ≠
      ⟨AquisitionState.Running, false, 3, none, []⟩ := by
  refine ⟨rfl, rfl, by decide⟩

/-! ## Meta routing lemmas and claim C4 -/

theorem feed_in_meta_loop_length (size : Nat) (l : List (String × Nat)) :
    (feed_in_meta_loop size l).length ≤ 1 := by
  induction l with
  | nil => simp [feed_in_meta_loop]
  | cons e rest ih =>
    obtain ⟨k, c⟩ := e
    by_cases h : k = "" ∧ 1 < size
    · simpa [feed_in_meta_loop, h] using ih
    · simp [feed_in_meta_loop, h]

theorem feed_in_meta_loop_group (size : Nat) (l : List (String × Nat))
    (hsize : ∀ e ∈ l, e.1 = "" → 1 < size)
    (hex : ∃ e ∈ l, e.1 ≠ "") :
    ∃ c, firstGroupConf l = some c ∧ feed_in_meta_loop size l = [c] := by
  induction l with
  | nil =>
    obtain ⟨e, he, _⟩ := hex
    exact absurd he (List.not_mem_nil e)
  | cons e rest ih =>
    obtain ⟨k, c⟩ := e
    by_cases hk : k = ""
    · subst hk
      have h1 : 1 < size := hsize ("", c) (List.mem_cons_self _ _) rfl
      have hex' : ∃ e ∈ rest, e.1 ≠ "" := by
        obtain ⟨e, he, hne⟩ := hex
        rcases List.mem_cons.mp he with rfl | he
        · exact absurd rfl hne
        · exact ⟨e, he, hne⟩
      obtain ⟨c', hf, hl⟩ :=
        ih (fun e he h => hsize e (List.mem_cons_of_mem _ he) h) hex'
      refine ⟨c', ?_, ?_⟩
      · simpa [firstGroupConf] using hf
      · simpa [feed_in_meta_loop, h1] using hl
    · refine ⟨c, ?_, ?_⟩
      · simp [firstGroupConf, hk]
      · simp [feed_in_meta_loop, hk]

/-- C4 counterexample: a device whose configurable registry is empty (no
channel group exposes config keys and the device itself has no usable
keys, so `init_configurables` created nothing) forwards a Meta packet to
zero Configurables, not exactly one. -/
theorem C4_meta_routing_counterexample :
    feed_in_meta [] = [] ∧ (feed_in_meta []).length ≠ 1 := by
  exact ⟨rfl, by decide⟩

/-- C4 (amended): a Meta packet is forwarded to at most one Configurable,
never two; when the registry is nonempty, exactly one receives it: the
first channel-group Configurable in registry iteration order if any
exists, and the device-level Configurable (keyed by the empty group name)
when it is the sole entry; an empty registry forwards to none. -/
theorem C4_meta_routing (m : List (String × Nat)) :
    (feed_in_meta m).length ≤ 1 ∧
    ((∃ e ∈ m, e.1 ≠ "") →
      ∃ c, firstGroupConf m = some c ∧ feed_in_meta m = [c]) ∧
    (∀ d, m = [("", d)] → feed_in_meta m = [d]) ∧
    (m = [] → feed_in_meta m = []) := by
  refine ⟨feed_in_meta_loop_length m.length m, ?_, ?_, ?_⟩
  · intro hex
    apply feed_in_meta_loop_group
    · intro e he hke
      obtain ⟨f, hf, hfne⟩ := hex
      match m, he, hf with
      | [a], he, hf =>
        have h1 : e = a := by simpa using he
        have h2 : f = a := by simpa using hf
        rw [h1] at hke
        rw [h2] at hfne
        exact absurd hke hfne
      | a :: b :: l, _, _ => simp
    · exact hex
  · intro d hm
    subst hm
    simp [feed_in_meta, feed_in_meta_loop]
  · intro hm
    subst hm
    rfl

/-- Closed witness for C4 (amended): with a device-level Configurable 10
and channel-group Configurables 20 and 30, only 20 (the first
channel-group entry) receives the Meta packet; with the device-level
Configurable alone, it receives it. -/
theorem C4_meta_routing_witness :
    (feed_in_meta [("", 10), ("grp1", 20), ("grp2", 30)]).length ≤ 1 ∧
    (∃ c, firstGroupConf [("", 10), ("grp1", 20), ("grp2", 30)] = some c ∧
      feed_in_meta [("", 10), ("grp1", 20), ("grp2", 30)] = [c]) ∧
    feed_in_meta [("", 10)] = [10] := by
  refine ⟨(C4_meta_routing _).1, ?_, ?_⟩
  · exact (C4_meta_routing _).2.1 ⟨("grp1", 20), by decide⟩
  · exact (C4_meta_routing [("", 10)]).2.2.1 10 rfl

/-! ## Claim C7: idempotent, non-throwing close -/

/-- C7: calling `close` on a device that is not open (already closed or
never opened) returns the state unchanged — session bookkeeping,
acquisition state and open flag untouched — and `close` never produces
an exception for any state, even when the driver's device close fails
(the `catch (...)` swallows it). -/
theorem C7_idempotent_close (st : DeviceLifecycle) (dev_close_fails : Bool) :
    (st.device_open = false → close dev_close_fails st = Except.ok st) ∧
    (∃ st', close dev_close_fails st = Except.ok st') := by
  constructor
  · intro h
    simp [close, h]
  · by_cases h : st.device_open
    · refine ⟨{ st with
        thread_running := false
        session_has_callbacks := false
        aquisition_state := AquisitionState.Stopped
        session_device_count := 0
        device_open := false }, ?_⟩
      simp only [close, h, Bool.not_true, Bool.false_eq_true, if_false]
      cases hf : sr_device_close dev_close_fails with
      | ok u => rfl
      | error e => rfl
    · exact ⟨st, by simp [close, h]⟩

/-- Closed witness for C7: close on a never-opened device is a no-op and
returns without an exception even when the driver close would fail; close
on an open device also returns without an exception when the driver
close fails. -/
theorem C7_idempotent_close_witness :
    close true ⟨false, AquisitionState.Stopped, false, 0, false⟩ =
      Except.ok ⟨false, AquisitionState.Stopped, false, 0, false⟩ ∧
    (∃ st', close true ⟨true, AquisitionState.Running, true, 1, true⟩ =
      Except.ok st') := by
  constructor
  · exact (C7_idempotent_close ⟨false, AquisitionState.Stopped, false, 0, false⟩
      true).1 rfl
  · exact (C7_idempotent_close ⟨true, AquisitionState.Running, true, 1, true⟩
      true).2

/-! ## Generic association-list lemmas for the registry proofs -/

theorem alookup_mem {κ ν : Type} [DecidableEq κ] (l : List (κ × ν)) (k : κ)
    (v : ν) (h : alookup l k = some v) : (k, v) ∈ l := by
  induction l with
  | nil => simp [alookup] at h
  | cons p rest ih =>
    obtain ⟨a, w⟩ := p
    rw [alookup_cons] at h
    by_cases ha : a = k
    · subst ha
      rw [if_pos rfl] at h
      obtain rfl := Option.some.inj h
      exact List.mem_cons_self _ _
    · rw [if_neg ha] at h
      exact List.mem_cons_of_mem _ (ih h)

theorem alookup_append_left {κ ν : Type} [DecidableEq κ]
    (l1 l2 : List (κ × ν)) (x : κ) (v : ν) (h : alookup l1 x = some v) :
    alookup (l1 ++ l2) x = some v := by
  induction l1 with
  | nil => simp [alookup] at h
  | cons p rest ih =>
    obtain ⟨k, w⟩ := p
    by_cases hk : k = x
    · rw [alookup_cons, if_pos hk] at h
      rw [List.cons_append, alookup_cons, if_pos hk]
      exact h
    · rw [alookup_cons, if_neg hk] at h
      rw [List.cons_append, alookup_cons, if_neg hk]
      exact ih h

theorem alookup_append_right {κ ν : Type} [DecidableEq κ]
    (l1 l2 : List (κ × ν)) (x : κ) (h : alookup l1 x = none) :
    alookup (l1 ++ l2) x = alookup l2 x := by
  induction l1 with
  | nil => rfl
  | cons p rest ih =>
    obtain ⟨k, w⟩ := p
    by_cases hk : k = x
    · rw [alookup_cons, if_pos hk] at h
      exact absurd h (by simp)
    · rw [alookup_cons, if_neg hk] at h
      rw [List.cons_append, alookup_cons, if_neg hk]
      exact ih h

theorem alookup_none_of_keys_lt (l : List (Nat × BChan)) (n : Nat)
    (h : ∀ q ∈ l, q.1 < n) : alookup l n = none := by
  induction l with
  | nil => rfl
  | cons p rest ih =>
    obtain ⟨k, v⟩ := p
    have hk : k < n := h (k, v) (List.mem_cons_self _ _)
    rw [alookup_cons, if_neg (by omega)]
    exact ih (fun q hq => h q (List.mem_cons_of_mem _ hq))

theorem alookup_eq_of_mem_nodup {κ ν : Type} [DecidableEq κ]
    (l : List (κ × ν)) (k : κ) (v : ν) (hmem : (k, v) ∈ l)
    (hnd : (l.map Prod.fst).Nodup) : alookup l k = some v := by
  induction l with
  | nil => simp at hmem
  | cons p rest ih =>
    obtain ⟨a, w⟩ := p
    rw [List.map_cons, List.nodup_cons] at hnd
    rcases List.mem_cons.mp hmem with heq | hmem'
    · obtain ⟨rfl, rfl⟩ := Prod.mk.injEq k v a w |>.mp heq
      rw [alookup_cons, if_pos rfl]
    · by_cases ha : a = k
      · subst ha
        exact absurd (List.mem_map_of_mem Prod.fst hmem') hnd.1
      · rw [alookup_cons, if_neg ha]
        exact ih hmem' hnd.2

theorem updateVal_cons {κ ν : Type} [DecidableEq κ] (a : κ) (v : ν)
    (rest : List (κ × ν)) (k : κ) (f : ν → ν) :
    updateVal ((a, v) :: rest) k f =
      (if a = k then (a, f v) else (a, v)) :: updateVal rest k f := by
  by_cases h : a = k <;> simp [updateVal, h]

theorem alookup_updateVal {κ ν : Type} [DecidableEq κ]
    (l : List (κ × ν)) (k : κ) (f : ν → ν) (x : κ) :
    alookup (updateVal l k f) x =
      if x = k then (alookup l k).map f else alookup l x := by
  induction l with
  | nil => simp [updateVal, alookup]
  | cons p rest ih =>
    obtain ⟨a, v⟩ := p
    rw [updateVal_cons]
    by_cases ha : a = k
    · rw [if_pos ha]
      subst ha
      simp only [alookup_cons]
      rw [ih]
      by_cases hx : a = x
      · subst hx
        simp
      · simp [hx, Ne.symm hx]
    · rw [if_neg ha]
      simp only [alookup_cons]
      rw [ih]
      by_cases hx : a = x
      · subst hx
        simp [ha]
      · simp [hx, ha]

theorem updateVal_map_fst {κ ν : Type} [DecidableEq κ] (l : List (κ × ν))
    (k : κ) (f : ν → ν) :
    (updateVal l k f).map Prod.fst = l.map Prod.fst := by
  induction l with
  | nil => rfl
  | cons p rest ih =>
    obtain ⟨a, v⟩ := p
    rw [updateVal_cons]
    by_cases h : a = k
    · simp only [if_pos h, List.map_cons, ih]
    · simp only [if_neg h, List.map_cons, ih]

theorem mem_updateVal {κ ν : Type} [DecidableEq κ] (l : List (κ × ν)) (k : κ)
    (f : ν → ν) (q : κ × ν) (h : q ∈ updateVal l k f) :
    ∃ p ∈ l, q = p ∨ q = (p.1, f p.2) := by
  simp only [updateVal, List.mem_map] at h
  obtain ⟨p, hp, hq⟩ := h
  by_cases hpk : p.1 = k
  · rw [if_pos hpk] at hq
    exact ⟨p, hp, Or.inr hq.symm⟩
  · rw [if_neg hpk] at hq
    exact ⟨p, hp, Or.inl hq.symm⟩

/-! ## Effect lemmas for `add_channel` -/

theorem add_channel_events (st : Registry) (cid : Nat) (g : String) :
    (add_channel st cid g).events = st.events ++ [cid] := rfl

theorem add_channel_nextId (st : Registry) (cid : Nat) (g : String) :
    (add_channel st cid g).nextId = st.nextId := rfl

theorem add_channel_name_map_lookup (st : Registry) (cid : Nat) (g : String)
    (n : String) (c : Nat) (h : alookup st.channel_name_map n = some c) :
    alookup (add_channel st cid g).channel_name_map n = some c := by
  simp only [add_channel]
  by_cases hn : (alookup st.channel_name_map
      ((alookup st.chans cid).getD ⟨"", []⟩).name).isSome
  · rw [if_pos hn]
    exact h
  · rw [if_neg hn, alookup_cons]
    by_cases he : ((alookup st.chans cid).getD ⟨"", []⟩).name = n
    · exfalso
      rw [he, h] at hn
      simp at hn
    · rw [if_neg he]
      exact h

theorem add_channel_name_map_new (st : Registry) (cid : Nat) (g : String)
    (ch : BChan) (hch : alookup st.chans cid = some ch)
    (habs : alookup st.channel_name_map ch.name = none) :
    alookup (add_channel st cid g).channel_name_map ch.name = some cid := by
  simp only [add_channel, hch, Option.getD_some]
  rw [habs]
  simp [alookup_cons]

theorem add_channel_group_self (st : Registry) (cid : Nat) (g : String) :
    cid ∈ (alookup (add_channel st cid g).channel_group_name_map g).getD [] := by
  simp only [add_channel]
  rw [alookup_updateVal, if_pos rfl]
  by_cases hg : (alookup st.channel_group_name_map g).isSome
  · rw [if_pos hg]
    obtain ⟨l, hl⟩ := Option.isSome_iff_exists.mp hg
    rw [hl]
    simp
  · rw [if_neg hg, alookup_cons, if_pos rfl]
    simp

theorem add_channel_group_mono (st : Registry) (cid : Nat) (g g0 : String)
    (c : Nat) (h : c ∈ (alookup st.channel_group_name_map g0).getD []) :
    c ∈ (alookup (add_channel st cid g).channel_group_name_map g0).getD [] := by
  simp only [add_channel]
  rw [alookup_updateVal]
  by_cases hg : g0 = g
  · subst hg
    cases hl : alookup st.channel_group_name_map g0 with
    | none =>
      rw [hl] at h
      simp at h
    | some l =>
      rw [hl] at h
      simp only [Option.getD_some] at h
      simp [hl]
      exact Or.inl h
  · rw [if_neg hg]
    by_cases hs : (alookup st.channel_group_name_map g).isSome
    · rw [if_pos hs]
      exact h
    · rw [if_neg hs, alookup_cons, if_neg (fun hh => hg hh.symm)]
      exact h

theorem add_channel_chans_lookup (st : Registry) (cid : Nat) (g : String)
    (x : Nat) :
    alookup (add_channel st cid g).chans x = alookup st.chans x ∨
    (x = cid ∧ ∃ c, alookup st.chans cid = some c ∧
      alookup (add_channel st cid g).chans x =
        some ⟨c.name, c.groupNames ++ [g]⟩) := by
  simp only [add_channel]
  by_cases hmem : g ∈ ((alookup st.chans cid).getD ⟨"", []⟩).groupNames
  · left
    rw [if_pos hmem]
  · rw [if_neg hmem, alookup_updateVal]
    by_cases hx : x = cid
    · subst hx
      cases hc : alookup st.chans x with
      | none =>
        left
        rw [if_pos rfl]
        rfl
      | some c =>
        right
        refine ⟨rfl, c, rfl, ?_⟩
        rw [if_pos rfl]
        rfl
    · left
      rw [if_neg hx]

theorem add_channel_chans_name (st : Registry) (cid : Nat) (g : String)
    (x : Nat) :
    (alookup (add_channel st cid g).chans x).map BChan.name =
      (alookup st.chans x).map BChan.name := by
  rcases add_channel_chans_lookup st cid g x with h | ⟨rfl, c, hc, h⟩
  · rw [h]
  · rw [h, hc]
    rfl

theorem add_channel_adds_group (st : Registry) (cid : Nat) (g : String)
    (ch : BChan) (hch : alookup st.chans cid = some ch) :
    ∃ ch', alookup (add_channel st cid g).chans cid = some ch' ∧
      ch'.name = ch.name ∧ g ∈ ch'.groupNames ∧
      ∀ s ∈ ch.groupNames, s ∈ ch'.groupNames := by
  simp only [add_channel]
  by_cases hmem : g ∈ ((alookup st.chans cid).getD ⟨"", []⟩).groupNames
  · rw [if_pos hmem]
    rw [hch] at hmem
    simp only [Option.getD_some] at hmem
    exact ⟨ch, hch, rfl, hmem, fun s hs => hs⟩
  · rw [if_neg hmem, alookup_updateVal, if_pos rfl, hch]
    exact ⟨⟨ch.name, ch.groupNames ++ [g]⟩, rfl, rfl, by simp,
      fun s hs => by simp [hs]⟩

theorem add_channel_chans_mem (st : Registry) (cid : Nat) (g : String)
    (q : Nat × BChan) (hq : q ∈ (add_channel st cid g).chans) :
    ∃ p ∈ st.chans, q.1 = p.1 ∧ q.2.name = p.2.name := by
  simp only [add_channel] at hq
  by_cases hmem : g ∈ ((alookup st.chans cid).getD ⟨"", []⟩).groupNames
  · rw [if_pos hmem] at hq
    exact ⟨q, hq, rfl, rfl⟩
  · rw [if_neg hmem] at hq
    obtain ⟨p, hp, hqp⟩ := mem_updateVal _ _ _ _ hq
    rcases hqp with heq | heq
    · exact ⟨p, hp, by rw [heq], by rw [heq]⟩
    · exact ⟨p, hp, by rw [heq], by rw [heq]⟩

theorem add_channel_chans_map_fst (st : Registry) (cid : Nat) (g : String) :
    (add_channel st cid g).chans.map Prod.fst = st.chans.map Prod.fst := by
  simp only [add_channel]
  by_cases hmem : g ∈ ((alookup st.chans cid).getD ⟨"", []⟩).groupNames
  · rw [if_pos hmem]
  · rw [if_neg hmem]
    exact updateVal_map_fst _ _ _

/-! ## Invariant preservation across registry construction -/

theorem add_channel_chans_of_group (st : Registry) (cid : Nat) (g : String)
    (ch : BChan) (hch : alookup st.chans cid = some ch)
    (hg : g ∈ ch.groupNames) :
    (add_channel st cid g).chans = st.chans := by
  simp only [add_channel, hch, Option.getD_some]
  rw [if_pos hg]

theorem add_channel_name_map_of_absent (st : Registry) (cid : Nat) (g : String)
    (ch : BChan) (hch : alookup st.chans cid = some ch)
    (habs : alookup st.channel_name_map ch.name = none) :
    (add_channel st cid g).channel_name_map =
      (ch.name, cid) :: st.channel_name_map := by
  simp only [add_channel, hch, Option.getD_some]
  rw [habs]
  simp

theorem add_channel_name_map_of_present (st : Registry) (cid : Nat) (g : String)
    (ch : BChan) (hch : alookup st.chans cid = some ch)
    (hpres : (alookup st.channel_name_map ch.name).isSome) :
    (add_channel st cid g).channel_name_map = st.channel_name_map := by
  simp only [add_channel, hch, Option.getD_some]
  rw [if_pos hpres]

theorem freshReg_chans_lookup (st : Registry) (sr : SrChannel) (g : String)
    (hnone : alookup st.chans st.nextId = none) :
    alookup (freshReg st sr g).chans st.nextId = some ⟨sr.name, [g]⟩ := by
  show alookup (st.chans ++ [(st.nextId, (⟨sr.name, [g]⟩ : BChan))]) st.nextId =
    some ⟨sr.name, [g]⟩
  rw [alookup_append_right _ _ _ hnone, alookup_cons, if_pos rfl]

theorem Inv_emptyRegistry : Inv emptyRegistry :=
  ⟨fun p hp => absurd hp (List.not_mem_nil p),
   fun q hq => absurd hq (List.not_mem_nil q),
   List.nodup_nil,
   fun q hq => absurd hq (List.not_mem_nil q)⟩

theorem Inv_add_sr_channel (st : Registry) (sr : SrChannel) (g : String)
    (hInv : Inv st) : Inv (add_sr_channel st sr g) := by
  obtain ⟨hsound, hcomp, hnd, hbound⟩ := hInv
  cases hb : alookup st.channel_name_map sr.name with
  | some cid =>
    simp only [add_sr_channel, hb]
    have hmemb := alookup_mem _ _ _ hb
    have hname := hsound (sr.name, cid) hmemb
    cases hch : alookup st.chans cid with
    | none =>
      rw [hch] at hname
      simp at hname
    | some ch =>
      rw [hch] at hname
      have hchname : ch.name = sr.name := by simpa using hname
      have hpres : (alookup st.channel_name_map ch.name).isSome := by
        rw [hchname, hb]
        rfl
      have hnm1 := add_channel_name_map_of_present st cid g ch hch hpres
      refine ⟨?_, ?_, ?_, ?_⟩
      · intro p hp
        rw [hnm1] at hp
        rw [add_channel_chans_name]
        exact hsound p hp
      · intro q hq
        obtain ⟨p, hp, h1, h2⟩ := add_channel_chans_mem st cid g q hq
        rw [hnm1, h2, h1]
        exact hcomp p hp
      · rw [add_channel_chans_map_fst]
        exact hnd
      · intro q hq
        obtain ⟨p, hp, h1, _⟩ := add_channel_chans_mem st cid g q hq
        rw [add_channel_nextId, h1]
        exact hbound p hp
  | none =>
    simp only [add_sr_channel, hb]
    have hnone : alookup st.chans st.nextId = none :=
      alookup_none_of_keys_lt st.chans st.nextId hbound
    have hch1 := freshReg_chans_lookup st sr g hnone
    have hchansR := add_channel_chans_of_group (freshReg st sr g) st.nextId g
      ⟨sr.name, [g]⟩ hch1 (List.mem_singleton.mpr rfl)
    have hnmR := add_channel_name_map_of_absent (freshReg st sr g) st.nextId g
      ⟨sr.name, [g]⟩ hch1 hb
    refine ⟨?_, ?_, ?_, ?_⟩
    · intro p hp
      rw [hnmR] at hp
      rcases List.mem_cons.mp hp with heq | hp'
      · subst heq
        rw [hchansR, hch1]
        rfl
      · have hold := hsound p hp'
        cases hcc : alookup st.chans p.2 with
        | none =>
          rw [hcc] at hold
          simp at hold
        | some c =>
          rw [hcc] at hold
          rw [hchansR]
          show (alookup (st.chans ++ [(st.nextId, (⟨sr.name, [g]⟩ : BChan))])
            p.2).map BChan.name = some p.1
          rw [alookup_append_left _ _ _ _ hcc]
          exact hold
    · intro q hq
      rw [hchansR] at hq
      have hq2 : q ∈ st.chans ++ [(st.nextId, (⟨sr.name, [g]⟩ : BChan))] := hq
      rcases List.mem_append.mp hq2 with hq' | hq'
      · have hold := hcomp q hq'
        have hne : sr.name ≠ q.2.name := by
          intro he
          rw [← he] at hold
          rw [hold] at hb
          exact Option.noConfusion hb
        rw [hnmR, alookup_cons, if_neg hne]
        exact hold
      · have heq : q = (st.nextId, (⟨sr.name, [g]⟩ : BChan)) := by simpa using hq'
        subst heq
        rw [hnmR, alookup_cons]
        rw [if_pos rfl]
    · rw [hchansR]
      show ((st.chans ++ [(st.nextId, (⟨sr.name, [g]⟩ : BChan))]).map
        Prod.fst).Nodup
      rw [List.map_append, List.nodup_append]
      refine ⟨hnd, by simp, ?_⟩
      intro a ha hb'
      obtain ⟨p, hp, rfl⟩ := List.mem_map.mp ha
      have : p.1 < st.nextId := hbound p hp
      have : p.1 = st.nextId := by simpa using hb'
      omega
    · intro q hq
      rw [hchansR] at hq
      have hq2 : q ∈ st.chans ++ [(st.nextId, (⟨sr.name, [g]⟩ : BChan))] := hq
      show q.1 < st.nextId + 1
      rcases List.mem_append.mp hq2 with hq' | hq'
      · have := hbound q hq'
        omega
      · have heq : q = (st.nextId, (⟨sr.name, [g]⟩ : BChan)) := by simpa using hq'
        rw [heq]
        omega

/-- Each `add_sr_channel` call emits exactly one channel-added event, and
the fired channel is fully registered in the post-state: its name is
bound in the name map to the fired id, the stored channel carries the
name and the group membership, and the group map lists the id under the
group. -/
theorem add_sr_channel_spec (st : Registry) (sr : SrChannel) (g : String)
    (hInv : Inv st) :
    ∃ cid, (add_sr_channel st sr g).events = st.events ++ [cid] ∧
      alookup (add_sr_channel st sr g).channel_name_map sr.name = some cid ∧
      (∃ ch, alookup (add_sr_channel st sr g).chans cid = some ch ∧
        ch.name = sr.name ∧ g ∈ ch.groupNames) ∧
      cid ∈ (alookup (add_sr_channel st sr g).channel_group_name_map g).getD [] := by
  obtain ⟨hsound, hcomp, hnd, hbound⟩ := hInv
  cases hb : alookup st.channel_name_map sr.name with
  | some cid =>
    simp only [add_sr_channel, hb]
    have hmemb := alookup_mem _ _ _ hb
    have hname := hsound (sr.name, cid) hmemb
    cases hch : alookup st.chans cid with
    | none =>
      rw [hch] at hname
      simp at hname
    | some ch =>
      rw [hch] at hname
      have hchname : ch.name = sr.name := by simpa using hname
      refine ⟨cid, rfl, ?_, ?_, ?_⟩
      · exact add_channel_name_map_lookup st cid g sr.name cid hb
      · obtain ⟨ch', hc', hn', hg', _⟩ := add_channel_adds_group st cid g ch hch
        exact ⟨ch', hc', by rw [hn', hchname], hg'⟩
      · exact add_channel_group_self st cid g
  | none =>
    simp only [add_sr_channel, hb]
    have hnone : alookup st.chans st.nextId = none :=
      alookup_none_of_keys_lt st.chans st.nextId hbound
    have hch1 := freshReg_chans_lookup st sr g hnone
    refine ⟨st.nextId, rfl, ?_, ?_, ?_⟩
    · exact add_channel_name_map_new (freshReg st sr g) st.nextId g
        ⟨sr.name, [g]⟩ hch1 hb
    · obtain ⟨ch', hc', hn', hg', _⟩ :=
        add_channel_adds_group (freshReg st sr g) st.nextId g ⟨sr.name, [g]⟩ hch1
      exact ⟨ch', hc', hn', hg'⟩
    · exact add_channel_group_self (freshReg st sr g) st.nextId g

/-- The `Registered` part of `add_sr_channel_spec`. -/
theorem add_sr_channel_registered (st : Registry) (sr : SrChannel) (g : String)
    (hInv : Inv st) : Registered (add_sr_channel st sr g) sr.name g := by
  obtain ⟨cid, _, hbind, ⟨ch, hc, hn, hg⟩, hgm⟩ := add_sr_channel_spec st sr g hInv
  exact ⟨cid, ch, hbind, hc, hn, hg, hgm⟩

/-- `add_channel` preserves every established registration. -/
theorem Registered_add_channel (st : Registry) (cid : Nat) (g1 : String)
    (n g0 : String) (h : Registered st n g0) :
    Registered (add_channel st cid g1) n g0 := by
  obtain ⟨cid0, ch0, hbind, hc, hname, hg0, hgm⟩ := h
  rcases add_channel_chans_lookup st cid g1 cid0 with hl | ⟨heq, c, hcc, hl⟩
  · refine ⟨cid0, ch0, add_channel_name_map_lookup st cid g1 n cid0 hbind, ?_,
      hname, hg0, add_channel_group_mono st cid g1 g0 cid0 hgm⟩
    rw [hl]
    exact hc
  · have hceq : c = ch0 := by
      rw [← heq] at hcc
      rw [hcc] at hc
      exact Option.some.inj hc
    subst hceq
    refine ⟨cid0, ⟨c.name, c.groupNames ++ [g1]⟩,
      add_channel_name_map_lookup st cid g1 n cid0 hbind, hl, hname,
      List.mem_append_left _ hg0,
      add_channel_group_mono st cid g1 g0 cid0 hgm⟩

/-- `add_sr_channel` preserves every established registration. -/
theorem Registered_add_sr_channel (st : Registry) (sr : SrChannel) (g1 : String)
    (n g0 : String) (h : Registered st n g0) :
    Registered (add_sr_channel st sr g1) n g0 := by
  cases hb : alookup st.channel_name_map sr.name with
  | some cid =>
    simp only [add_sr_channel, hb]
    exact Registered_add_channel st cid g1 n g0 h
  | none =>
    simp only [add_sr_channel, hb]
    apply Registered_add_channel
    obtain ⟨cid0, ch0, hbind, hc, hname, hg0, hgm⟩ := h
    refine ⟨cid0, ch0, hbind, ?_, hname, hg0, hgm⟩
    show alookup (st.chans ++ [(st.nextId, (⟨sr.name, [g1]⟩ : BChan))]) cid0 =
      some ch0
    exact alookup_append_left _ _ _ _ hc

/-! ## Fold lemmas over the two passes of `init_channels` -/

theorem Registered_foldl_pass1 (items : List (String × SrChannel)) :
    ∀ (st : Registry) (n g : String), Registered st n g →
      Registered (items.foldl (fun s gc => add_sr_channel s gc.2 gc.1) st) n g := by
  induction items with
  | nil =>
    intro st n g h
    exact h
  | cons it rest ih =>
    intro st n g h
    rw [List.foldl_cons]
    exact ih _ n g (Registered_add_sr_channel st it.2 it.1 n g h)

theorem Inv_foldl_pass1 (items : List (String × SrChannel)) :
    ∀ st : Registry, Inv st →
      Inv (items.foldl (fun s gc => add_sr_channel s gc.2 gc.1) st) := by
  induction items with
  | nil =>
    intro st h
    exact h
  | cons it rest ih =>
    intro st h
    rw [List.foldl_cons]
    exact ih _ (Inv_add_sr_channel st it.2 it.1 h)

theorem foldl_pass1_establishes (items : List (String × SrChannel)) :
    ∀ st : Registry, Inv st → ∀ (g : String) (sr : SrChannel), (g, sr) ∈ items →
      Registered (items.foldl (fun s gc => add_sr_channel s gc.2 gc.1) st)
        sr.name g := by
  induction items with
  | nil =>
    intro st _ g sr h
    simp at h
  | cons it rest ih =>
    intro st hInv g sr hmem
    rw [List.foldl_cons]
    rcases List.mem_cons.mp hmem with heq | hmem'
    · subst heq
      exact Registered_foldl_pass1 rest _ sr.name g
        (add_sr_channel_registered st sr g hInv)
    · exact ih _ (Inv_add_sr_channel st it.2 it.1 hInv) g sr hmem'

theorem Registered_initPass2 (srChans : List SrChannel) :
    ∀ (st : Registry) (n g : String), Registered st n g →
      Registered (initPass2 st srChans) n g := by
  induction srChans with
  | nil =>
    intro st n g h
    exact h
  | cons c rest ih =>
    intro st n g h
    show Registered (initPass2 (if (alookup st.sr_channel_map c).isSome then st
      else add_sr_channel st c "") rest) n g
    by_cases hc : (alookup st.sr_channel_map c).isSome
    · rw [if_pos hc]
      exact ih st n g h
    · rw [if_neg hc]
      exact ih _ n g (Registered_add_sr_channel st c "" n g h)

theorem Inv_initPass2 (srChans : List SrChannel) :
    ∀ st : Registry, Inv st → Inv (initPass2 st srChans) := by
  induction srChans with
  | nil =>
    intro st h
    exact h
  | cons c rest ih =>
    intro st h
    show Inv (initPass2 (if (alookup st.sr_channel_map c).isSome then st
      else add_sr_channel st c "") rest)
    by_cases hc : (alookup st.sr_channel_map c).isSome
    · rw [if_pos hc]
      exact ih st h
    · rw [if_neg hc]
      exact ih _ (Inv_add_sr_channel st c "" h)

theorem mem_groupWorkItems (groups : List (String × List SrChannel))
    (g : String) (cs : List SrChannel) (c : SrChannel)
    (hg : (g, cs) ∈ groups) (hc : c ∈ cs) :
    (g, c) ∈ groupWorkItems groups := by
  induction groups with
  | nil => simp at hg
  | cons gc rest ih =>
    obtain ⟨g0, cs0⟩ := gc
    rcases List.mem_cons.mp hg with heq | hg'
    · obtain ⟨rfl, rfl⟩ := Prod.mk.injEq g cs g0 cs0 |>.mp heq
      exact List.mem_append_left _
        (List.mem_map_of_mem (fun c => (g, c)) hc)
    · exact List.mem_append_right _ (ih hg')

/-! ## Claims C5 and C6 about registry construction -/

/-- C5: whenever the driver reports the same channel name in two
different channel groups, `init_channels` yields exactly one stored
Channel object of that name; the name map binds the name to its id, the
group map lists that id under both group names, the channel object holds
both group memberships, and every stored channel of that name is that
one object. -/
theorem C5_channel_identity (groups : List (String × List SrChannel))
    (srChans : List SrChannel) (gA gB n : String)
    (csA csB : List SrChannel) (chA chB : SrChannel)
    (hA : (gA, csA) ∈ groups) (hchA : chA ∈ csA)
    (hB : (gB, csB) ∈ groups) (hchB : chB ∈ csB)
    (hnA : chA.name = n) (hnB : chB.name = n) (hAB : gA ≠ gB) :
    ∃ cid ch,
      alookup (init_channels groups srChans).channel_name_map n = some cid ∧
      alookup (init_channels groups srChans).chans cid = some ch ∧
      ch.name = n ∧ gA ∈ ch.groupNames ∧ gB ∈ ch.groupNames ∧
      cid ∈ (alookup (init_channels groups srChans).channel_group_name_map gA).getD [] ∧
      cid ∈ (alookup (init_channels groups srChans).channel_group_name_map gB).getD [] ∧
      ∀ q ∈ (init_channels groups srChans).chans, q.2.name = n → q = (cid, ch) := by
  have hP1Inv : Inv (initPass1 emptyRegistry groups) :=
    Inv_foldl_pass1 (groupWorkItems groups) emptyRegistry Inv_emptyRegistry
  have hRegA1 : Registered (initPass1 emptyRegistry groups) chA.name gA :=
    foldl_pass1_establishes (groupWorkItems groups) emptyRegistry
      Inv_emptyRegistry gA chA (mem_groupWorkItems groups gA csA chA hA hchA)
  have hRegB1 : Registered (initPass1 emptyRegistry groups) chB.name gB :=
    foldl_pass1_establishes (groupWorkItems groups) emptyRegistry
      Inv_emptyRegistry gB chB (mem_groupWorkItems groups gB csB chB hB hchB)
  have hRegA : Registered (init_channels groups srChans) n gA := by
    rw [← hnA]
    exact Registered_initPass2 srChans _ chA.name gA hRegA1
  have hRegB : Registered (init_channels groups srChans) n gB := by
    rw [← hnB]
    exact Registered_initPass2 srChans _ chB.name gB hRegB1
  have hInvF : Inv (init_channels groups srChans) :=
    Inv_initPass2 srChans _ hP1Inv
  obtain ⟨cidA, chA', hbA, hcA, hnameA, hgA, hgmA⟩ := hRegA
  obtain ⟨cidB, chB', hbB, hcB, hnameB, hgB, hgmB⟩ := hRegB
  have hcid : cidA = cidB := by
    rw [hbA] at hbB
    exact Option.some.inj hbB
  subst hcid
  have hch : chA' = chB' := by
    rw [hcA] at hcB
    exact Option.some.inj hcB
  subst hch
  refine ⟨cidA, chA', hbA, hcA, hnameA, hgA, hgB, hgmA, hgmB, ?_⟩
  rintro ⟨q1, q2⟩ hq hqname
  obtain ⟨_, hcompF, hndF, _⟩ := hInvF
  have h1 := hcompF (q1, q2) hq
  rw [hqname, hbA] at h1
  have hq1 : cidA = q1 := Option.some.inj h1
  have h2 : alookup (init_channels groups srChans).chans q1 = some q2 :=
    alookup_eq_of_mem_nodup _ _ _ hq hndF
  rw [← hq1, hcA] at h2
  have hq2 : chA' = q2 := Option.some.inj h2
  rw [← hq1, ← hq2]

/-- Closed witness for C5: channel name "CH1" reported (as two distinct
driver channel objects) in groups "a" and "b" yields one stored channel
holding both memberships. -/
theorem C5_channel_identity_witness :
    ∃ cid ch,
      alookup (init_channels [("a", [⟨0, "CH1"⟩]), ("b", [⟨1, "CH1"⟩])]
        [⟨0, "CH1"⟩, ⟨1, "CH1"⟩]).channel_name_map "CH1" = some cid ∧
      alookup (init_channels [("a", [⟨0, "CH1"⟩]), ("b", [⟨1, "CH1"⟩])]
        [⟨0, "CH1"⟩, ⟨1, "CH1"⟩]).chans cid = some ch ∧
      ch.name = "CH1" ∧ "a" ∈ ch.groupNames ∧ "b" ∈ ch.groupNames ∧
      cid ∈ (alookup (init_channels [("a", [⟨0, "CH1"⟩]), ("b", [⟨1, "CH1"⟩])]
        [⟨0, "CH1"⟩, ⟨1, "CH1"⟩]).channel_group_name_map "a").getD [] ∧
      cid ∈ (alookup (init_channels [("a", [⟨0, "CH1"⟩]), ("b", [⟨1, "CH1"⟩])]
        [⟨0, "CH1"⟩, ⟨1, "CH1"⟩]).channel_group_name_map "b").getD [] ∧
      ∀ q ∈ (init_channels [("a", [⟨0, "CH1"⟩]), ("b", [⟨1, "CH1"⟩])]
        [⟨0, "CH1"⟩, ⟨1, "CH1"⟩]).chans, q.2.name = "CH1" → q = (cid, ch) :=
  C5_channel_identity [("a", [⟨0, "CH1"⟩]), ("b", [⟨1, "CH1"⟩])]
    [⟨0, "CH1"⟩, ⟨1, "CH1"⟩] "a" "b" "CH1" [⟨0, "CH1"⟩] [⟨1, "CH1"⟩]
    ⟨0, "CH1"⟩ ⟨1, "CH1"⟩ (by decide) (by decide) (by decide) (by decide)
    rfl rfl (by decide)

/-- C6 counterexample: a channel reported in two channel groups fires the
channel-added notification twice, although the registry ends with exactly
one distinct channel named "CH1" — refuting "exactly once per distinct
channel name". -/
theorem C6_counterexample_double_notification :
    (init_channels [("a", [⟨0, "CH1"⟩]), ("b", [⟨0, "CH1"⟩])]
      [⟨0, "CH1"⟩]).events = [0, 0] ∧
    (init_channels [("a", [⟨0, "CH1"⟩]), ("b", [⟨0, "CH1"⟩])]
      [⟨0, "CH1"⟩]).chans = [(0, ⟨"CH1", ["a", "b"]⟩)] ∧
    (init_channels [("a", [⟨0, "CH1"⟩]), ("b", [⟨0, "CH1"⟩])]
      [⟨0, "CH1"⟩]).events.length ≠ 1 := by
  refine ⟨rfl, rfl, by decide⟩

/-- C6 (amended): during registry construction, the channel-added
notification is fired exactly once per `add_sr_channel` registration —
once per discovered (channel, group-membership) pair, so a channel
discovered through k channel groups fires it k times — and each emission
happens after the channel is fully registered: the emitted channel's
name is bound in the name map, the stored channel carries the name and
the group membership, and the group map lists it under the group. -/
theorem C6_notification_per_registration (st : Registry) (sr : SrChannel)
    (g : String) (hInv : Inv st) :
    ∃ cid, (add_sr_channel st sr g).events = st.events ++ [cid] ∧
      alookup (add_sr_channel st sr g).channel_name_map sr.name = some cid ∧
      (∃ ch, alookup (add_sr_channel st sr g).chans cid = some ch ∧
        ch.name = sr.name ∧ g ∈ ch.groupNames) ∧
      cid ∈ (alookup (add_sr_channel st sr g).channel_group_name_map g).getD [] :=
  add_sr_channel_spec st sr g hInv

/-- Closed witness for C6 (amended): registering "CH1" under group "grp"
in the empty registry emits exactly one notification, after full
registration. -/
theorem C6_notification_per_registration_witness :
    ∃ cid, (add_sr_channel emptyRegistry ⟨0, "CH1"⟩ "grp").events =
        emptyRegistry.events ++ [cid] ∧
      alookup (add_sr_channel emptyRegistry ⟨0, "CH1"⟩ "grp").channel_name_map
        "CH1" = some cid ∧
      (∃ ch, alookup (add_sr_channel emptyRegistry ⟨0, "CH1"⟩ "grp").chans cid =
        some ch ∧ ch.name = "CH1" ∧ "grp" ∈ ch.groupNames) ∧
      cid ∈ (alookup (add_sr_channel emptyRegistry ⟨0, "CH1"⟩
        "grp").channel_group_name_map "grp").getD [] :=
  C6_notification_per_registration emptyRegistry ⟨0, "CH1"⟩ "grp"
    Inv_emptyRegistry

end SmuView
